import Mathlib

/-!
Verification development for the txhammer transaction-generation engine.

The Go sources are shallowly embedded: pure computations become Lean
functions over `Nat`/`Int`/`List`, the external collaborators (keccak-256,
secp256k1 signing, address derivation) are abstract function parameters,
and the RLP encoder is implemented concretely following the Ethereum RLP
rules used by the go-ethereum `rlp` package.
-/

namespace Txhammer

/-! ### RLP encoding (go-ethereum `rlp.Encode` semantics)

An RLP value is either a byte string or a list of RLP values.  Bytes are
modelled as `List Nat` with each element < 256 (the encoder never inspects
that bound).  Unsigned integers (`uint64`, non-negative `*big.Int`) encode
as their minimal big-endian byte string, the empty string for zero. -/

inductive RVal where
  | bytes (bs : List Nat)
  | list (items : List RVal)
deriving Repr

/-- Minimal big-endian byte representation of a natural number (empty for 0). -/
def natToBE (n : Nat) : List Nat :=
  if n = 0 then [] else natToBE (n / 256) ++ [n % 256]
termination_by n
decreasing_by
  exact Nat.div_lt_self (Nat.pos_of_ne_zero (by assumption)) (by norm_num)

/-- RLP header for a payload of length `n` of kind bytes (`offset = 128`)
or list (`offset = 192`). -/
def rlpHeader (offset : Nat) (n : Nat) : List Nat :=
  if n < 56 then [offset + n]
  else (offset + 55 + (natToBE n).length) :: natToBE n

/-- RLP encoding of a byte string. -/
def rlpEncodeBytes (bs : List Nat) : List Nat :=
  match bs with
  | [b] => if b < 128 then [b] else rlpHeader 128 1 ++ [b]
  | _ => rlpHeader 128 bs.length ++ bs

mutual

/-- RLP encoding of a value. -/
def rlpEncode : RVal → List Nat
  | .bytes bs => rlpEncodeBytes bs
  | .list items =>
    let payload := rlpEncodeItems items
    rlpHeader 192 payload.length ++ payload

/-- Concatenated RLP encodings of the elements of a list value. -/
def rlpEncodeItems : List RVal → List Nat
  | [] => []
  | v :: vs => rlpEncode v ++ rlpEncodeItems vs

end

/-- RLP item for an unsigned integer (uint64 or non-negative big.Int). -/
def natRLP (n : Nat) : RVal := .bytes (natToBE n)

/-! ### DistributeTransactions (txbuilder/builder.go)

`DistributeTransactions(numAccounts, totalTxs)` returns a map from account
index to positive transaction count.  We embed it as the association list
of `(index, count)` pairs in index order, entries with count zero omitted,
exactly as the Go loop populates the map. -/

/-- Per-index count computed inside the `DistributeTransactions` loop:
`baseCount` plus one for the first `remainder` indices. -/
def distCount (numAccounts totalTxs i : Nat) : Nat :=
  let baseCount := totalTxs / numAccounts
  let remainder := totalTxs % numAccounts
  if i < remainder then baseCount + 1 else baseCount

/-- `DistributeTransactions` from builder.go: the `(index, count)` entries
with positive count, for indices `0 .. numAccounts-1`. -/
def DistributeTransactions (numAccounts totalTxs : Nat) : List (Nat × Nat) :=
  if numAccounts = 0 then []
  else
    ((List.range numAccounts).map (fun i => (i, distCount numAccounts totalTxs i))).filter
      (fun p => 0 < p.2)

/-! ### GetGasSettings (txbuilder/builder.go) -/

/-- Result of the two estimator queries (`SuggestGasTipCap`,
`SuggestGasPrice`); each may fail with an error string. -/
structure Estimator where
  suggestGasTipCap : Except String Int
  suggestGasPrice : Except String Int

/-- `BaseBuilder.GetGasSettings`: take configured caps when present,
otherwise query the estimator (fee cap = 2 x suggested price), then clamp
the tip cap down to the fee cap when both are present and tip > fee. -/
def GetGasSettings (cfgTipCap cfgFeeCap : Option Int) (estimator : Option Estimator) :
    Except String (Option Int × Option Int) := do
  let gasTipCap ← match cfgTipCap, estimator with
    | none, some e => do
        let tip ← e.suggestGasTipCap
        pure (some tip)
    | t, _ => pure t
  let gasFeeCap ← match cfgFeeCap, estimator with
    | none, some e => do
        let price ← e.suggestGasPrice
        pure (some (price * 2))
    | f, _ => pure f
  match gasTipCap, gasFeeCap with
  | some tip, some fee =>
      if fee < tip then pure (some fee, some fee) else pure (some tip, some fee)
  | t, f => pure (t, f)

/-! ### Fee-delegated transaction (txbuilder/fee_delegation.go, type 0x16)

The external collaborators keccak-256, secp256k1 `crypto.Sign` and
`crypto.PubkeyToAddress` are abstract function parameters (the spec lists
them as assumed-available primitives).  `crypto.Sign` returns a 65-byte
signature `r || s || v`; the builder reads the three components, so the
abstraction returns them directly. -/

/-- The `(r, s, v)` components the builder extracts from a 65-byte
`crypto.Sign` signature. -/
structure Sig where
  r : Nat
  s : Nat
  v : Nat
deriving Repr, DecidableEq

/-- Abstract cryptographic collaborators used by the fee-delegation
builder: keccak-256, `crypto.Sign` (hash bytes and private key to
signature) and `crypto.PubkeyToAddress` (private key to 20-byte address). -/
structure FDCrypto where
  keccak : List Nat → List Nat
  sign : List Nat → Nat → Sig
  pubAddr : Nat → List Nat

/-- `prefixedRlpHash`: keccak256 of a one-byte tag followed by the RLP
encoding of the data. -/
def prefixedRlpHash (keccak : List Nat → List Nat) (pre : Nat) (data : RVal) : List Nat :=
  keccak (pre :: rlpEncode data)

/-- `senderTxData` from `buildFeeDelegationTx`: the nine-element EIP-1559
payload with empty `data` and empty access list, exactly as the builder
hardcodes them. -/
def fdSenderTxData (chainID nonce gasTipCap gasFeeCap gasLimit : Nat)
    (toA : List Nat) (value : Nat) : List RVal :=
  [natRLP chainID, natRLP nonce, natRLP gasTipCap, natRLP gasFeeCap, natRLP gasLimit,
   .bytes toA, natRLP value, .bytes [], .list []]

/-- `buildFeeDelegationTx` from fee_delegation.go: two-step signing and
final encoding of a type-0x16 transaction; returns `(rawTx, txHash)`. -/
def buildFeeDelegationTx (c : FDCrypto) (senderKey feePayerKey chainID nonce : Nat)
    (toA : List Nat) (value gasLimit gasTipCap gasFeeCap : Nat) : List Nat × List Nat :=
  let feePayer := c.pubAddr feePayerKey
  let senderTxData := fdSenderTxData chainID nonce gasTipCap gasFeeCap gasLimit toA value
  let senderHash := prefixedRlpHash c.keccak 0x02 (.list senderTxData)
  let senderSig := c.sign senderHash senderKey
  let senderTxWithSig :=
    senderTxData ++ [natRLP senderSig.v, natRLP senderSig.r, natRLP senderSig.s]
  let feePayerHash :=
    prefixedRlpHash c.keccak 0x16 (.list [.list senderTxWithSig, .bytes feePayer])
  let feePayerSig := c.sign feePayerHash feePayerKey
  let fullTxData : List RVal :=
    [.list senderTxWithSig, .bytes feePayer,
     natRLP feePayerSig.v, natRLP feePayerSig.r, natRLP feePayerSig.s]
  let rawTx := 0x16 :: rlpEncode (.list fullTxData)
  (rawTx, c.keccak rawTx)

/-! The intermediate values of `buildFeeDelegationTx` (the source's
`senderTxWithSig` and `fullTxData` lets), named so the bit-exactness
theorem can state the wire layout. -/

/-- `senderTxWithSig`: the sender payload with the sender signature
appended (12 RLP items). -/
def fdSenderTxWithSig (c : FDCrypto) (senderKey chainID nonce : Nat)
    (toA : List Nat) (value gasLimit gasTipCap gasFeeCap : Nat) : List RVal :=
  let senderTxData := fdSenderTxData chainID nonce gasTipCap gasFeeCap gasLimit toA value
  let senderSig := c.sign (prefixedRlpHash c.keccak 0x02 (.list senderTxData)) senderKey
  senderTxData ++ [natRLP senderSig.v, natRLP senderSig.r, natRLP senderSig.s]

/-- `fullTxData`: the 5-item outer list
`[senderTxWithSig, feePayer, v_f, r_f, s_f]`. -/
def fdFullTxData (c : FDCrypto) (senderKey feePayerKey chainID nonce : Nat)
    (toA : List Nat) (value gasLimit gasTipCap gasFeeCap : Nat) : List RVal :=
  let sws := fdSenderTxWithSig c senderKey chainID nonce toA value gasLimit gasTipCap gasFeeCap
  let feePayer := c.pubAddr feePayerKey
  let feePayerSig := c.sign
    (prefixedRlpHash c.keccak 0x16 (.list [.list sws, .bytes feePayer])) feePayerKey
  [.list sws, .bytes feePayer,
   natRLP feePayerSig.v, natRLP feePayerSig.r, natRLP feePayerSig.s]

/-! ### Signed transactions and the standard (go-ethereum) encodings

`types.Transaction` marshalling and hashing, as the go-ethereum library
the builders call implements them: a legacy transaction marshals to the
plain RLP of its nine signed fields and hashes as `keccak256(rlp(tx))`;
a typed (EIP-1559) transaction marshals to `type || rlp(fields)` and
hashes as `keccak256(type || rlp(fields))`. -/

inductive GoTx where
  | legacy (nonce gasPrice gas : Nat) (toA : Option (List Nat)) (value : Nat)
      (data : List Nat) (v r s : Nat)
  | dynamicFee (chainID nonce gasTipCap gasFeeCap gas : Nat) (toA : Option (List Nat))
      (value : Nat) (data : List Nat) (accessList : List RVal) (v r s : Nat)

/-- The signed RLP field list of a transaction. -/
def GoTx.fields : GoTx → List RVal
  | .legacy nonce gasPrice gas toA value data v r s =>
      [natRLP nonce, natRLP gasPrice, natRLP gas, .bytes (toA.getD []), natRLP value,
       .bytes data, natRLP v, natRLP r, natRLP s]
  | .dynamicFee chainID nonce gasTipCap gasFeeCap gas toA value data accessList v r s =>
      [natRLP chainID, natRLP nonce, natRLP gasTipCap, natRLP gasFeeCap, natRLP gas,
       .bytes (toA.getD []), natRLP value, .bytes data, .list accessList,
       natRLP v, natRLP r, natRLP s]

/-- `types.Transaction.MarshalBinary`. -/
def GoTx.marshalBinary : GoTx → List Nat
  | .legacy nonce gasPrice gas toA value data v r s =>
      rlpEncode (.list (GoTx.fields (.legacy nonce gasPrice gas toA value data v r s)))
  | .dynamicFee chainID nonce gasTipCap gasFeeCap gas toA value data accessList v r s =>
      0x02 :: rlpEncode (.list (GoTx.fields
        (.dynamicFee chainID nonce gasTipCap gasFeeCap gas toA value data accessList v r s)))

/-- `types.Transaction.Hash`: `rlpHash(tx)` for legacy,
`prefixedRlpHash(type, tx)` for typed transactions. -/
def GoTx.txHash (keccak : List Nat → List Nat) : GoTx → List Nat
  | .legacy nonce gasPrice gas toA value data v r s =>
      keccak (rlpEncode (.list (GoTx.fields (.legacy nonce gasPrice gas toA value data v r s))))
  | .dynamicFee chainID nonce gasTipCap gasFeeCap gas toA value data accessList v r s =>
      keccak (0x02 :: rlpEncode (.list (GoTx.fields
        (.dynamicFee chainID nonce gasTipCap gasFeeCap gas toA value data accessList v r s))))

/-- `txbuilder.SignedTx` (types.go): raw bytes, hash, sender address,
nonce, gas limit; the `Tx` pointer is not needed by the claims. -/
structure SignedTx where
  rawTx : List Nat
  hash : List Nat
  fromAddr : List Nat
  nonce : Nat
  gasLimit : Nat
deriving Repr, DecidableEq, Inhabited

/-- `common.Address{}`: the zero address (20 zero bytes). -/
def zeroAddress : List Nat := List.replicate 20 0

/-! ### TransferBuilder.Build (txbuilder/factory.go concatenation, transfer.go)

`Build` distributes `count` transactions over the accounts, then for each
account builds `txCount` legacy self-transfers with consecutive nonces.
Go iterates the distribution map in an unspecified order; the embedding
takes that iteration order as an explicit `order` parameter, constrained
in the theorems to be a permutation of the `DistributeTransactions`
entries. -/

/-- One signed transfer transaction: legacy tx with `gasPrice = gasFeeCap`,
`value` defaulting to 1 wei, self-transfer when no recipient configured,
signed through the abstract signer (`types.SignTx` with a London signer). -/
def transferMkTx (keccak : List Nat → List Nat) (legacySig : Nat → List RVal → Nat → Sig)
    (pubAddr : Nat → List Nat) (recipient : List Nat) (cfgValue : Option Nat)
    (chainID gasPrice gasLimit : Nat) (keys : List Nat)
    (accountIdx nonce : Nat) : SignedTx :=
  let key := keys.getD accountIdx 0
  let fromA := pubAddr key
  let toA := if recipient = zeroAddress then fromA else recipient
  let value := cfgValue.getD 1
  let unsignedFields : List RVal :=
    [natRLP nonce, natRLP gasPrice, natRLP gasLimit, .bytes toA, natRLP value, .bytes []]
  let sig := legacySig chainID unsignedFields key
  let tx : GoTx := .legacy nonce gasPrice gasLimit (some toA) value [] sig.v sig.r sig.s
  { rawTx := tx.marshalBinary, hash := tx.txHash keccak, fromAddr := fromA,
    nonce := nonce, gasLimit := gasLimit }

/-- `TransferBuilder.Build`. -/
def transferBuild (keccak : List Nat → List Nat) (legacySig : Nat → List RVal → Nat → Sig)
    (pubAddr : Nat → List Nat) (recipient : List Nat) (cfgValue : Option Nat)
    (chainID gasPrice cfgGasLimit : Nat) (keys nonces : List Nat) (count : Nat)
    (order : List (Nat × Nat)) : Except String (List SignedTx) :=
  if keys.length = 0 then .error "no keys provided"
  else if keys.length ≠ nonces.length then .error "keys and nonces length mismatch"
  else
    let gasLimit := if cfgGasLimit = 0 then 21000 else cfgGasLimit
    .ok (order.flatMap fun e =>
      (List.range e.2).map fun i =>
        transferMkTx keccak legacySig pubAddr recipient cfgValue chainID gasPrice gasLimit
          keys e.1 (nonces.getD e.1 0 + i))

/-- One fee-delegated transaction inside `FeeDelegationBuilder.Build`:
value fixed at 1 wei, self-transfer when no recipient configured. -/
def feeDelegationMkTx (c : FDCrypto) (feePayerKey : Nat) (recipient : List Nat)
    (chainID gasLimit gasTipCap gasFeeCap : Nat) (keys : List Nat)
    (accountIdx nonce : Nat) : SignedTx :=
  let key := keys.getD accountIdx 0
  let fromA := c.pubAddr key
  let toA := if recipient = zeroAddress then fromA else recipient
  let built := buildFeeDelegationTx c key feePayerKey chainID nonce toA 1
    gasLimit gasTipCap gasFeeCap
  { rawTx := built.1, hash := built.2, fromAddr := fromA,
    nonce := nonce, gasLimit := gasLimit }

/-- `FeeDelegationBuilder.Build`. -/
def feeDelegationBuild (c : FDCrypto) (feePayerKey : Option Nat) (recipient : List Nat)
    (chainID cfgGasLimit gasTipCap gasFeeCap : Nat) (keys nonces : List Nat) (count : Nat)
    (order : List (Nat × Nat)) : Except String (List SignedTx) :=
  if keys.length = 0 then .error "no keys provided"
  else if keys.length ≠ nonces.length then .error "keys and nonces length mismatch"
  else
    match feePayerKey with
    | none => .error "fee payer key is required for fee delegation"
    | some fpk =>
      let gasLimit := if cfgGasLimit = 0 then 21000 else cfgGasLimit
      .ok (order.flatMap fun e =>
        (List.range e.2).map fun i =>
          feeDelegationMkTx c fpk recipient chainID gasLimit gasTipCap gasFeeCap
            keys e.1 (nonces.getD e.1 0 + i))

/-! ### Collector metrics (collector.go)

Latencies (`time.Duration`, an int64 nanosecond count) are modelled as
`Int`.  `calculatePercentile` bubble-sorts a copy of the array and takes
the element at index `(n-1)*p/100`; the embedding uses `insertionSort`,
which produces the same list (the sorted permutation of a list of
integers is unique). -/

/-- `Collector.calculatePercentile`. -/
def calculatePercentile (latencies : List Int) (p : Nat) : Int :=
  if latencies.isEmpty then 0
  else
    let sorted := latencies.insertionSort (· ≤ ·)
    sorted.getD ((latencies.length - 1) * p / 100) 0

/-- `Collector.calculateMinMaxLatency`. -/
def calculateMinMaxLatency (latencies : List Int) : Int × Int :=
  match latencies with
  | [] => (0, 0)
  | l0 :: rest =>
      rest.foldl
        (fun mm l => (if l < mm.1 then l else mm.1, if l > mm.2 then l else mm.2))
        (l0, l0)

/-! ### Collector receipt/timeout state machine (collector.go)

For the terminal-state invariant only the per-record `Status` matters; the
record map is embedded as an association list from hash to status.
`collectBatch` snapshots up to `BatchSize` pending records (Go map
iteration order is unspecified, so the snapshot is a parameter `sel`) and
transitions those whose receipt query succeeds; `markTimeouts` turns every
remaining pending record into timeout. -/

inductive TxConfirmStatus where
  | pending
  | success
  | failed
  | timeout
deriving Repr, DecidableEq

/-- `Collector.collectBatch`: a record transitions only if it is pending,
was selected into the snapshot, and its receipt query returns a receipt
(`some status`); a failed receipt query keeps it pending. -/
def collectBatch (receiptOf : Nat → Option Bool) (sel : List Nat)
    (m : List (Nat × TxConfirmStatus)) : List (Nat × TxConfirmStatus) :=
  m.map fun e =>
    if e.2 = .pending ∧ e.1 ∈ sel then
      match receiptOf e.1 with
      | none => e
      | some true => (e.1, .success)
      | some false => (e.1, .failed)
    else e

/-- `Collector.markTimeouts`: every pending record becomes timeout. -/
def markTimeouts (m : List (Nat × TxConfirmStatus)) : List (Nat × TxConfirmStatus) :=
  m.map fun e => if e.2 = .pending then (e.1, .timeout) else e

/-- The collector operations the `Collect` loop performs on the record
map: receipt polling rounds and the final timeout marking. -/
inductive CollectorOp where
  | collect (receiptOf : Nat → Option Bool) (sel : List Nat)
  | timeouts

def applyOp : CollectorOp → List (Nat × TxConfirmStatus) → List (Nat × TxConfirmStatus)
  | .collect receiptOf sel, m => collectBatch receiptOf sel m
  | .timeouts, m => markTimeouts m

def applyOps (ops : List CollectorOp) (m : List (Nat × TxConfirmStatus)) :
    List (Nat × TxConfirmStatus) :=
  ops.foldl (fun acc op => applyOp op acc) m

/-- Status of the record for `h`, if tracked. -/
def lookupStatus (h : Nat) (m : List (Nat × TxConfirmStatus)) : Option TxConfirmStatus :=
  (m.find? (fun e => e.1 = h)).map Prod.snd

/-! ### Batcher (batcher/batcher.go)

The batch RPC client is abstracted as a function from the attempt number
to that attempt's outcome (`eth_sendRawTransaction` batch: either a
whole-chunk error or one returned hash per element, a zero hash flagging
an element-level failure).  Hashes are `Nat`, `0` standing for
`common.Hash{}`.  The wall-clock effects of the loop (the RPC call of
each attempt and the `retryDelay` sleep before every retry) are recorded
in an event trace. -/

inductive BatchEvent where
  | rpcCall (attempt : Nat)
  | sleep (delay : Nat)
deriving Repr, DecidableEq

/-- Per-transaction result status (`TxStatusPending/Sent/Failed`). -/
inductive BatchTxStatus where
  | pending
  | sent
  | failed
deriving Repr, DecidableEq

structure BatchTxResult where
  status : BatchTxStatus
  hash : Nat
  err : Option String
deriving Repr, DecidableEq

def BatchEvent.isCall : BatchEvent → Bool
  | .rpcCall _ => true
  | .sleep _ => false

/-- The retry loop of `sendBatchWithRetry`: attempts `attempt`,
`attempt+1`, … while `fuel` lasts, sleeping `retryDelay` before every
attempt after the first, returning at the first successful call. -/
def retryLoop (retryDelay : Nat) (client : Nat → Except String (List Nat)) :
    Nat → Nat → List BatchEvent × Except String (List Nat)
  | _, 0 => ([], .error "batch send failed")
  | attempt, fuel + 1 =>
    let pre : List BatchEvent := if 0 < attempt then [.sleep retryDelay] else []
    match client attempt with
    | .ok hashes => (pre ++ [.rpcCall attempt], .ok hashes)
    | .error e =>
      match fuel with
      | 0 => (pre ++ [.rpcCall attempt], .error ("batch send failed after retries: " ++ e))
      | fuel' + 1 =>
        let rest := retryLoop retryDelay client (attempt + 1) (fuel' + 1)
        (pre ++ [.rpcCall attempt] ++ rest.1, rest.2)

/-- `Batcher.sendBatchWithRetry`: at most `retryCount + 1` attempts. -/
def sendBatchWithRetry (retryCount retryDelay : Nat)
    (client : Nat → Except String (List Nat)) :
    List BatchEvent × Except String (List Nat) :=
  retryLoop retryDelay client 0 (retryCount + 1)

/-- `Batcher.sendBatch` result processing: on a whole-chunk error every
element is marked failed with that error; on success element `i` is
failed iff its returned hash is the zero hash, sent otherwise (elements
beyond the returned hash array stay pending). -/
def sendBatch (retryCount retryDelay : Nat) (client : Nat → Except String (List Nat))
    (txCount : Nat) : List BatchEvent × List BatchTxResult :=
  let sent := sendBatchWithRetry retryCount retryDelay client
  match sent.2 with
  | .error e => (sent.1, List.replicate txCount ⟨.failed, 0, some e⟩)
  | .ok hashes =>
    (sent.1, (List.range txCount).map fun i =>
      match hashes.get? i with
      | none => ⟨.pending, 0, none⟩
      | some h => if h = 0 then ⟨.failed, h, none⟩ else ⟨.sent, h, none⟩)

/-! ### Distributor (distributor.go, concatenated into batcher/batcher.go)

Balances are non-negative `big.Int` values, modelled as `Int` with the
source's exact arithmetic.  The RPC calls `fundAccounts` makes are
recorded in an action trace; the values the node would return
(`masterBalance`, `suggestedGasPrice`, `masterNonce`) are parameters. -/

structure AccountStatus where
  address : Nat
  balance : Int
  requiredFund : Int
  missingFund : Int
  nonce : Nat
  isFunded : Bool
deriving Repr, DecidableEq

structure DistributionResult where
  readyAccounts : List AccountStatus
  unfundedAccounts : List AccountStatus
  totalDistributed : Int
  txCount : Nat
deriving Repr, DecidableEq

inductive DistError where
  | insufficientFunds
deriving Repr, DecidableEq

inductive DistAction where
  | balanceAt (addr : Nat)
  | suggestGasPrice
  | pendingNonceAt (addr : Nat)
  | sendTransaction (toAddr : Nat) (value : Int) (nonce : Nat)
deriving Repr, DecidableEq

def DistAction.isSend : DistAction → Bool
  | .sendTransaction _ _ _ => true
  | _ => false

/-- The greedy selection loop of `fundAccounts`: accept accounts in order
while the remaining master balance covers `missingFund + transferCost`,
stopping at the first account it cannot cover. -/
def selectFundable (transferCost : Int) : Int → List AccountStatus → List AccountStatus
  | _, [] => []
  | remaining, a :: rest =>
    let cost := a.missingFund + transferCost
    if remaining < cost then []
    else a :: selectFundable transferCost (remaining - cost) rest

/-- The gas price `fundAccounts` uses: the configured one when present
and positive, else the suggested one (recording the RPC call). -/
def resolveGasPrice (cfgGasPrice : Option Int) (suggestedGasPrice : Int) :
    Int × List DistAction :=
  match cfgGasPrice with
  | some g => if 0 < g then (g, []) else (suggestedGasPrice, [.suggestGasPrice])
  | none => (suggestedGasPrice, [.suggestGasPrice])

/-- The funded copy of an account after its transfer is sent:
`IsFunded = true`, balance increased by the missing fund. -/
def markFunded (a : AccountStatus) : AccountStatus :=
  { a with isFunded := true, balance := a.balance + a.missingFund }

/-- `Distributor.fundAccounts`: check the master balance, resolve the gas
price, greedily select fundable accounts; with zero fundable accounts fail
with `ErrInsufficientFunds` (before fetching the master nonce or sending
anything), otherwise fetch the master nonce and send one legacy transfer
per selected account with consecutive nonces.  Returns the action trace
and the result. -/
def fundAccounts (masterAddr : Nat) (masterBalance : Int) (cfgGasPrice : Option Int)
    (suggestedGasPrice : Int) (masterNonce : Nat)
    (unfundedAccounts : List AccountStatus) :
    List DistAction × Except DistError DistributionResult :=
  let gp := resolveGasPrice cfgGasPrice suggestedGasPrice
  let trace0 := DistAction.balanceAt masterAddr :: gp.2
  let transferCost := gp.1 * 21000
  let fundable := selectFundable transferCost masterBalance unfundedAccounts
  if fundable.isEmpty then (trace0, .error .insufficientFunds)
  else
    let sends := fundable.enum.map fun p =>
      DistAction.sendTransaction p.2.address p.2.missingFund (masterNonce + p.1)
    let trace := trace0 ++ [DistAction.pendingNonceAt masterAddr] ++ sends
    (trace, .ok
      { readyAccounts := fundable.map markFunded
        unfundedAccounts := unfundedAccounts.drop fundable.length
        totalDistributed := (fundable.map AccountStatus.missingFund).sum
        txCount := fundable.length })

/-- The ascending-by-missing-fund sort `Distribute` applies to the
unfunded accounts before calling `fundAccounts`. -/
def sortByMissing (accounts : List AccountStatus) : List AccountStatus :=
  accounts.insertionSort (fun x y => x.missingFund ≤ y.missingFund)

/-- Total cost charged against the master balance for a list of accepted
accounts: each costs its missing fund plus the 21000-gas transfer fee. -/
def fundCostSum (transferCost : Int) (accounts : List AccountStatus) : Int :=
  (accounts.map (fun a => a.missingFund + transferCost)).sum

instance : IsTotal AccountStatus (fun x y => x.missingFund ≤ y.missingFund) :=
  ⟨fun a b => Int.le_total a.missingFund b.missingFund⟩

instance : IsTrans AccountStatus (fun x y => x.missingFund ≤ y.missingFund) :=
  ⟨fun _ _ _ hab hbc => le_trans hab hbc⟩

/-! ## Theorems -/

/-! ### Even distribution (claim C4) -/

lemma ceil_div_eq (n t : Nat) (hn : 0 < n) :
    (t + n - 1) / n = if t % n = 0 then t / n else t / n + 1 := by
  have hmod := Nat.div_add_mod t n
  have hrlt : t % n < n := Nat.mod_lt _ hn
  by_cases hr : t % n = 0
  · simp only [hr, if_pos]
    have h1 : t + n - 1 = (n - 1) + n * (t / n) := by omega
    rw [h1, Nat.add_mul_div_left _ _ hn, Nat.div_eq_of_lt (by omega)]
    omega
  · simp only [hr, if_neg, if_false]
    have hms : n * (t / n + 1) = n * (t / n) + n := Nat.mul_succ n (t / n)
    have h1 : t + n - 1 = (t % n - 1) + n * (t / n + 1) := by omega
    rw [h1, Nat.add_mul_div_left _ _ hn, Nat.div_eq_of_lt (by omega)]
    omega

lemma mem_distributeTransactions {n t : Nat} {e : Nat × Nat} :
    e ∈ DistributeTransactions n t ↔ e.1 < n ∧ e.2 = distCount n t e.1 ∧ 0 < e.2 := by
  unfold DistributeTransactions
  by_cases hn : n = 0
  · subst hn; simp
  · simp only [hn, if_neg, if_false, List.mem_filter, List.mem_map, List.mem_range]
    constructor
    · rintro ⟨⟨i, hi, rfl⟩, hpos⟩
      simp_all [decide_eq_true_eq]
    · rintro ⟨h1, h2, h3⟩
      exact ⟨⟨e.1, h1, by rw [← h2]⟩, by simp [decide_eq_true_eq]; omega⟩

lemma distributeTransactions_eq (n t : Nat) :
    DistributeTransactions n t =
      ((List.range n).filter (fun i => 0 < distCount n t i)).map
        (fun i => (i, distCount n t i)) := by
  unfold DistributeTransactions
  by_cases hn : n = 0
  · subst hn; simp
  · simp only [hn, if_neg, if_false]
    rw [List.filter_map]
    rfl

lemma sum_map_range_split (f : Nat → Nat) (base r n : Nat) (hr : r ≤ n)
    (h1 : ∀ i, i < r → f i = base + 1) (h2 : ∀ i, r ≤ i → f i = base) :
    ((List.range n).map f).sum = n * base + r := by
  obtain ⟨m, rfl⟩ := Nat.exists_eq_add_of_le hr
  have hsplit : List.range (r + m) = List.range' 0 r ++ List.range' r m := by
    rw [List.range_eq_range']
    have h := List.range'_append 0 r m 1
    simp only [Nat.one_mul, Nat.zero_add] at h
    rw [Nat.add_comm r m, ← h]
  rw [hsplit, List.map_append, List.sum_append]
  have e1 : (List.range' 0 r).map f = List.replicate r (base + 1) := by
    rw [show (List.range' 0 r) = List.range r by rw [List.range_eq_range']]
    rw [List.eq_replicate_iff]
    refine ⟨by simp, ?_⟩
    intro b hb
    obtain ⟨i, hi, rfl⟩ := List.mem_map.mp hb
    exact h1 i (List.mem_range.mp hi)
  have e2 : (List.range' r m).map f = List.replicate m base := by
    rw [List.eq_replicate_iff]
    refine ⟨by simp, ?_⟩
    intro b hb
    obtain ⟨i, hi, rfl⟩ := List.mem_map.mp hb
    obtain ⟨j, _, rfl⟩ := List.mem_range'.mp hi
    exact h2 _ (by omega)
  rw [e1, e2, List.sum_replicate, List.sum_replicate, smul_eq_mul, smul_eq_mul]
  ring

lemma sum_map_filter_pos (f : Nat → Nat) :
    ∀ l : List Nat, ((l.filter (fun i => 0 < f i)).map f).sum = (l.map f).sum := by
  intro l
  induction l with
  | nil => rfl
  | cons i rest ih =>
    rw [List.filter_cons]
    by_cases hp : 0 < f i
    · simp [hp, ih]
    · have hz : f i = 0 := by omega
      simp [hp, ih, hz]

/-- C4: for `n_keys ≥ 1`, `DistributeTransactions` gives every key either
`⌊n_total/n_keys⌋` or `⌈n_total/n_keys⌉` transactions, the first
`n_total mod n_keys` keys get one extra, and the assignments sum to
`n_total`. -/
theorem distributeTransactions_even_law (nKeys nTotal : Nat) (hk : 1 ≤ nKeys) :
    (∀ e ∈ DistributeTransactions nKeys nTotal,
        e.2 = nTotal / nKeys ∨ e.2 = (nTotal + nKeys - 1) / nKeys) ∧
    (∀ i, i < nKeys →
        (i < nTotal % nKeys → distCount nKeys nTotal i = nTotal / nKeys + 1) ∧
        (nTotal % nKeys ≤ i → distCount nKeys nTotal i = nTotal / nKeys)) ∧
    ((DistributeTransactions nKeys nTotal).map Prod.snd).sum = nTotal := by
  have hn : 0 < nKeys := hk
  refine ⟨?_, ?_, ?_⟩
  · intro e he
    obtain ⟨h1, h2, h3⟩ := mem_distributeTransactions.mp he
    unfold distCount at h2
    by_cases hi : e.1 < nTotal % nKeys
    · right
      rw [ceil_div_eq _ _ hn]
      have hr : ¬ nTotal % nKeys = 0 := by omega
      simp only [hr, if_neg, if_false]
      simp only [hi, if_pos] at h2
      exact h2
    · left
      simp only [hi, if_neg, if_false] at h2
      exact h2
  · intro i _
    unfold distCount
    constructor
    · intro hi; simp [hi]
    · intro hi; simp [Nat.not_lt.mpr hi]
  · rw [distributeTransactions_eq, List.map_map]
    have : (Prod.snd ∘ fun i => (i, distCount nKeys nTotal i)) = distCount nKeys nTotal := rfl
    rw [this, sum_map_filter_pos]
    have hrange := sum_map_range_split (distCount nKeys nTotal) (nTotal / nKeys)
      (nTotal % nKeys) nKeys (le_of_lt (Nat.mod_lt _ hn))
      (fun i hi => by unfold distCount; simp [hi])
      (fun i hi => by unfold distCount; simp [Nat.not_lt.mpr hi])
    rw [hrange]
    have := Nat.div_add_mod nTotal nKeys
    omega

/-- Closed-instance witness for `distributeTransactions_even_law`. -/
theorem distributeTransactions_even_law_witness :
    1 ≤ 3 ∧
    ((∀ e ∈ DistributeTransactions 3 10, e.2 = 10 / 3 ∨ e.2 = (10 + 3 - 1) / 3) ∧
     (∀ i, i < 3 → (i < 10 % 3 → distCount 3 10 i = 10 / 3 + 1) ∧
        (10 % 3 ≤ i → distCount 3 10 i = 10 / 3)) ∧
     ((DistributeTransactions 3 10).map Prod.snd).sum = 10) :=
  ⟨by decide, distributeTransactions_even_law 3 10 (by decide)⟩

/-! ### GasOracle clamp (claim C9) -/

/-- C9: whenever `GetGasSettings` returns with both caps present — whether
they came from the configuration or from the suggestion queries — the tip
cap is at most the fee cap, the violating input having been clamped. -/
theorem getGasSettings_clamp (cfgTipCap cfgFeeCap : Option Int) (estimator : Option Estimator)
    (tip fee : Int)
    (h : GetGasSettings cfgTipCap cfgFeeCap estimator = .ok (some tip, some fee)) :
    tip ≤ fee := by
  unfold GetGasSettings at h
  rcases cfgTipCap with _ | t <;> rcases cfgFeeCap with _ | f <;>
    rcases estimator with _ | e
  all_goals try rcases e with ⟨et, ep⟩
  all_goals try rcases et with msg | tv
  all_goals try rcases ep with msg2 | pv
  all_goals simp only [Except.bind, bind, pure, Except.pure] at h
  all_goals try split at h
  all_goals simp_all
  all_goals omega

/-- Closed-instance witness for `getGasSettings_clamp`: a configured pair
`(tip, fee) = (10, 5)` is clamped to `(5, 5)`. -/
theorem getGasSettings_clamp_witness : (5 : Int) ≤ 5 :=
  getGasSettings_clamp (some 10) (some 5) none 5 5 (by rfl)

/-! ### Fee-delegation bit-exactness (claim C1)

The intermediate values of `buildFeeDelegationTx` (the source's
`senderTxWithSig` and `fullTxData` lets), named so the theorem can state
the wire layout. -/

/-- C1: for fixed inputs the fee-delegated raw bytes equal
`0x16 || rlp([senderTxWithSig, feePayer, v_f, r_f, s_f])` — a pure
function of the inputs, hence deterministic — beginning with the byte
`0x16`; the outer RLP list has arity 5 and its element 0 (the sender
payload with the sender signature appended) has arity 12; and the hash
surfaced to the collector is `keccak256(raw)`. -/
theorem feeDelegation_bitexact (c : FDCrypto) (senderKey feePayerKey chainID nonce : Nat)
    (toA : List Nat) (value gasLimit gasTipCap gasFeeCap : Nat) :
    (buildFeeDelegationTx c senderKey feePayerKey chainID nonce toA value
        gasLimit gasTipCap gasFeeCap).1 =
      0x16 :: rlpEncode (.list (fdFullTxData c senderKey feePayerKey chainID nonce toA value
        gasLimit gasTipCap gasFeeCap)) ∧
    (buildFeeDelegationTx c senderKey feePayerKey chainID nonce toA value
        gasLimit gasTipCap gasFeeCap).1.head? = some 0x16 ∧
    (fdFullTxData c senderKey feePayerKey chainID nonce toA value
        gasLimit gasTipCap gasFeeCap).length = 5 ∧
    (fdFullTxData c senderKey feePayerKey chainID nonce toA value
        gasLimit gasTipCap gasFeeCap).head? =
      some (.list (fdSenderTxWithSig c senderKey chainID nonce toA value
        gasLimit gasTipCap gasFeeCap)) ∧
    (fdSenderTxWithSig c senderKey chainID nonce toA value
        gasLimit gasTipCap gasFeeCap).length = 12 ∧
    (buildFeeDelegationTx c senderKey feePayerKey chainID nonce toA value
        gasLimit gasTipCap gasFeeCap).2 =
      c.keccak (buildFeeDelegationTx c senderKey feePayerKey chainID nonce toA value
        gasLimit gasTipCap gasFeeCap).1 := by
  refine ⟨rfl, rfl, rfl, rfl, ?_, rfl⟩
  simp [fdSenderTxWithSig, fdSenderTxData]

/-! ### Percentile law (claim C8) -/

lemma minMaxFold_snd_ge (rest : List Int) :
    ∀ (mn mx : Int),
      mx ≤ (rest.foldl
        (fun mm l => (if l < mm.1 then l else mm.1, if l > mm.2 then l else mm.2)) (mn, mx)).2 ∧
      ∀ x ∈ rest, x ≤ (rest.foldl
        (fun mm l => (if l < mm.1 then l else mm.1, if l > mm.2 then l else mm.2)) (mn, mx)).2 := by
  induction rest with
  | nil => intro mn mx; simp
  | cons y ys ih =>
    intro mn mx
    simp only [List.foldl_cons]
    obtain ⟨ih1, ih2⟩ := ih (if y < mn then y else mn) (if y > mx then y else mx)
    constructor
    · refine le_trans ?_ ih1
      split <;> omega
    · intro x hx
      rcases List.mem_cons.mp hx with rfl | hx'
      · refine le_trans ?_ ih1
        split <;> omega
      · exact ih2 x hx'

lemma le_minMax_snd {x : Int} {l : List Int} (hx : x ∈ l) :
    x ≤ (calculateMinMaxLatency l).2 := by
  match l with
  | [] => cases hx
  | l0 :: rest =>
    unfold calculateMinMaxLatency
    obtain ⟨h1, h2⟩ := minMaxFold_snd_ge rest l0 l0
    rcases List.mem_cons.mp hx with rfl | hx'
    · exact h1
    · exact h2 x hx'

/-- C8: for a non-empty latency array each percentile equals the element
of the sorted array at index `(n-1)*p/100`, and `P50 ≤ P95 ≤ P99 ≤ max`
where `max` is the maximum reported by `calculateMinMaxLatency`. -/
theorem percentile_law (l : List Int) (hne : l ≠ []) (s : List Int)
    (hperm : s.Perm l) (hsort : s.Sorted (· ≤ ·)) :
    (∀ p, p ≤ 100 → (l.length - 1) * p / 100 < l.length ∧
        calculatePercentile l p = s.getD ((l.length - 1) * p / 100) 0) ∧
    calculatePercentile l 50 ≤ calculatePercentile l 95 ∧
    calculatePercentile l 95 ≤ calculatePercentile l 99 ∧
    calculatePercentile l 99 ≤ (calculateMinMaxLatency l).2 := by
  have hsl : l.insertionSort (· ≤ ·) = s :=
    List.eq_of_perm_of_sorted ((List.perm_insertionSort _ l).trans hperm.symm)
      (List.sorted_insertionSort _ l) hsort
  have hlpos : 0 < l.length := List.length_pos.mpr hne
  have hlen : s.length = l.length := hperm.length_eq
  have hempty : ¬ (l.isEmpty = true) := by
    simp [List.isEmpty_iff, hne]
  have hidx : ∀ p, p ≤ 100 → (l.length - 1) * p / 100 < l.length := by
    intro p hp
    have h1 : (l.length - 1) * p / 100 ≤ (l.length - 1) * 100 / 100 :=
      Nat.div_le_div_right (Nat.mul_le_mul_left _ hp)
    rw [Nat.mul_div_cancel _ (by norm_num)] at h1
    omega
  have heval : ∀ p, calculatePercentile l p = s.getD ((l.length - 1) * p / 100) 0 := by
    intro p
    unfold calculatePercentile
    rw [if_neg hempty, hsl]
  have hmono : ∀ p q, p ≤ q → q ≤ 100 → calculatePercentile l p ≤ calculatePercentile l q := by
    intro p q hpq hq
    rw [heval p, heval q]
    have hip : (l.length - 1) * p / 100 < s.length := hlen ▸ hidx p (le_trans hpq hq)
    have hiq : (l.length - 1) * q / 100 < s.length := hlen ▸ hidx q hq
    rw [List.getD_eq_get s 0 hip, List.getD_eq_get s 0 hiq]
    refine List.Sorted.rel_get_of_le hsort ?_
    exact Nat.div_le_div_right (Nat.mul_le_mul_left _ hpq)
  refine ⟨fun p hp => ⟨hidx p hp, heval p⟩, hmono 50 95 (by norm_num) (by norm_num),
    hmono 95 99 (by norm_num) (by norm_num), ?_⟩
  rw [heval 99]
  have hi99 : (l.length - 1) * 99 / 100 < s.length := hlen ▸ hidx 99 (by norm_num)
  rw [List.getD_eq_get s 0 hi99]
  refine le_minMax_snd ?_
  exact hperm.mem_iff.mp (List.get_mem s _ hi99)

/-- Closed-instance witness for `percentile_law` on the array `[3, 1, 2]`
with sorted permutation `[1, 2, 3]`. -/
theorem percentile_law_witness :
    (([3, 1, 2] : List Int) ≠ []) ∧ ([1, 2, 3] : List Int).Perm [3, 1, 2] ∧
    ([1, 2, 3] : List Int).Sorted (· ≤ ·) ∧
    (calculatePercentile [3, 1, 2] 50 ≤ calculatePercentile [3, 1, 2] 95 ∧
     calculatePercentile [3, 1, 2] 95 ≤ calculatePercentile [3, 1, 2] 99 ∧
     calculatePercentile [3, 1, 2] 99 ≤ (calculateMinMaxLatency [3, 1, 2]).2) :=
  ⟨by decide, by decide, by decide,
   (percentile_law [3, 1, 2] (by decide) [1, 2, 3] (by decide) (by decide)).2⟩

/-! ### Collector terminal-state stability (claim C7) -/

/-- Key-preserving, terminal-preserving maps leave the looked-up status
of a terminal record unchanged. -/
lemma lookupStatus_map_of_terminal (f : Nat × TxConfirmStatus → Nat × TxConfirmStatus)
    (hkey : ∀ e, (f e).1 = e.1)
    (hfix : ∀ e, e.2 ≠ TxConfirmStatus.pending → (f e).2 = e.2) :
    ∀ (m : List (Nat × TxConfirmStatus)) (h : Nat) (s : TxConfirmStatus),
      lookupStatus h m = some s → s ≠ .pending → lookupStatus h (m.map f) = some s := by
  intro m
  induction m with
  | nil => intro h s hs; simp [lookupStatus] at hs
  | cons e rest ih =>
    intro h s hs hterm
    unfold lookupStatus at hs ⊢
    rw [List.map_cons]
    by_cases hk : e.1 = h
    · rw [List.find?_cons_of_pos _ (by simpa using hk)] at hs
      have hs' : e.2 = s := by simpa using hs
      rw [List.find?_cons_of_pos _ (by simp [hkey e, hk])]
      simp [hfix e (hs' ▸ hterm), hs']
    · rw [List.find?_cons_of_neg _ (by simpa using hk)] at hs
      rw [List.find?_cons_of_neg _ (by simp [hkey e, hk])]
      exact ih h s hs hterm

lemma applyOp_keeps_terminal (op : CollectorOp) (m : List (Nat × TxConfirmStatus))
    (h : Nat) (s : TxConfirmStatus) (hs : lookupStatus h m = some s)
    (hterm : s ≠ .pending) : lookupStatus h (applyOp op m) = some s := by
  cases op with
  | collect receiptOf sel =>
    refine lookupStatus_map_of_terminal _ ?_ ?_ m h s hs hterm
    · intro e
      by_cases hp : e.2 = TxConfirmStatus.pending ∧ e.1 ∈ sel
      · simp only [hp, if_pos]
        rcases receiptOf e.1 with _ | b
        · rfl
        · cases b <;> rfl
      · simp only [hp, if_neg, if_false]
    · intro e hp
      have : ¬ (e.2 = TxConfirmStatus.pending ∧ e.1 ∈ sel) := fun ⟨h1, _⟩ => hp h1
      simp only [this, if_neg, if_false]
  | timeouts =>
    refine lookupStatus_map_of_terminal _ ?_ ?_ m h s hs hterm
    · intro e
      by_cases hp : e.2 = TxConfirmStatus.pending <;> simp [markTimeouts, hp]
    · intro e hp
      simp [markTimeouts, hp]

/-- C7: a record in a terminal state (success, failed or timeout) is never
transitioned again by any sequence of collector operations (receipt
polling rounds or timeout marking); only pending records transition. -/
theorem collector_terminal_stable (ops : List CollectorOp)
    (m : List (Nat × TxConfirmStatus)) (h : Nat) (s : TxConfirmStatus)
    (hs : lookupStatus h m = some s) (hterm : s ≠ .pending) :
    lookupStatus h (applyOps ops m) = some s := by
  induction ops generalizing m with
  | nil => exact hs
  | cons op rest ih =>
    unfold applyOps
    rw [List.foldl_cons]
    exact ih _ (applyOp_keeps_terminal op m h s hs hterm)

/-- Closed-instance witness for `collector_terminal_stable`: a successful
record survives a further polling round and the timeout sweep. -/
theorem collector_terminal_stable_witness :
    lookupStatus 1 [(1, TxConfirmStatus.success), (2, TxConfirmStatus.pending)] =
      some TxConfirmStatus.success ∧
    TxConfirmStatus.success ≠ TxConfirmStatus.pending ∧
    lookupStatus 1 (applyOps [CollectorOp.collect (fun _ => some false) [1, 2],
        CollectorOp.timeouts] [(1, TxConfirmStatus.success), (2, TxConfirmStatus.pending)]) =
      some TxConfirmStatus.success :=
  ⟨by decide, by decide,
   collector_terminal_stable [CollectorOp.collect (fun _ => some false) [1, 2],
     CollectorOp.timeouts] [(1, TxConfirmStatus.success), (2, TxConfirmStatus.pending)]
     1 TxConfirmStatus.success (by decide) (by decide)⟩

/-! ### Batcher retry semantics (claim C5) -/

lemma filter_isCall_pre (d attempt : Nat) :
    (if 0 < attempt then [BatchEvent.sleep d] else []).filter BatchEvent.isCall = [] := by
  split <;> rfl

lemma flatMap_sched_shift (d attempt k : Nat) :
    (List.range (k + 1)).flatMap
      (fun a => (if 0 < attempt + 1 + a then [BatchEvent.sleep d] else []) ++
        [BatchEvent.rpcCall (attempt + 1 + a)]) =
    (List.range (k + 1)).flatMap
      (fun a => (if 0 < attempt + Nat.succ a then [BatchEvent.sleep d] else []) ++
        [BatchEvent.rpcCall (attempt + Nat.succ a)]) := by
  refine List.flatMap_congr ?_
  intro a _
  have h1 : attempt + 1 + a = attempt + Nat.succ a := by omega
  rw [h1]

lemma sched_succ (d attempt k : Nat) :
    (List.range (k + 1 + 1)).flatMap
      (fun a => (if 0 < attempt + a then [BatchEvent.sleep d] else []) ++
        [BatchEvent.rpcCall (attempt + a)]) =
    ((if 0 < attempt then [BatchEvent.sleep d] else []) ++ [BatchEvent.rpcCall attempt]) ++
      (List.range (k + 1)).flatMap
        (fun a => (if 0 < attempt + 1 + a then [BatchEvent.sleep d] else []) ++
          [BatchEvent.rpcCall (attempt + 1 + a)]) := by
  rw [List.range_succ_eq_map (k + 1), List.flatMap_cons, List.flatMap_map,
    flatMap_sched_shift]
  simp

lemma sched_one (d attempt : Nat) :
    (List.range 1).flatMap
      (fun a => (if 0 < attempt + a then [BatchEvent.sleep d] else []) ++
        [BatchEvent.rpcCall (attempt + a)]) =
    (if 0 < attempt then [BatchEvent.sleep d] else []) ++ [BatchEvent.rpcCall attempt] := by
  rw [show List.range 1 = [0] from rfl, List.flatMap_cons, List.flatMap_nil,
    List.append_nil, Nat.add_zero]

lemma retryLoop_stops_at_success (d : Nat) (client : Nat → Except String (List Nat))
    (hashes : List Nat) :
    ∀ (k attempt fuel : Nat), k < fuel →
      (∀ a, a < k → ∃ e, client (attempt + a) = .error e) →
      client (attempt + k) = .ok hashes →
      retryLoop d client attempt fuel =
        ((List.range (k + 1)).flatMap
          (fun a => (if 0 < attempt + a then [BatchEvent.sleep d] else []) ++
            [BatchEvent.rpcCall (attempt + a)]), .ok hashes) := by
  intro k
  induction k with
  | zero =>
    intro attempt fuel hfuel _ hok
    match fuel, hfuel with
    | f + 1, _ =>
      unfold retryLoop
      rw [show attempt + 0 = attempt from rfl] at hok
      rw [hok, sched_one]
  | succ k ih =>
    intro attempt fuel hfuel hfail hok
    obtain ⟨e, he⟩ := hfail 0 (Nat.succ_pos _)
    rw [Nat.add_zero] at he
    match fuel, hfuel with
    | f + 1, hfuel =>
      have hkf : k < f := by omega
      match f, hkf with
      | f' + 1, hkf =>
        have ihenv := ih (attempt + 1) (f' + 1) hkf
          (fun a ha => by
            obtain ⟨e', he'⟩ := hfail (a + 1) (by omega)
            exact ⟨e', by rw [← he']; ring_nf⟩)
          (by rw [← hok]; ring_nf)
        unfold retryLoop
        rw [he]
        simp only [ihenv]
        rw [sched_succ]
        try simp [List.append_assoc]

lemma retryLoop_all_fail (d : Nat) (client : Nat → Except String (List Nat)) :
    ∀ (fuel attempt : Nat), 0 < fuel →
      (∀ a, a < fuel → ∃ e, client (attempt + a) = .error e) →
      ∃ msg, retryLoop d client attempt fuel =
        ((List.range fuel).flatMap
          (fun a => (if 0 < attempt + a then [BatchEvent.sleep d] else []) ++
            [BatchEvent.rpcCall (attempt + a)]), .error msg) := by
  intro fuel
  induction fuel with
  | zero => intro attempt h; omega
  | succ f ih =>
    intro attempt _ hfail
    obtain ⟨e, he⟩ := hfail 0 (Nat.succ_pos _)
    rw [Nat.add_zero] at he
    match f with
    | 0 =>
      refine ⟨"batch send failed after retries: " ++ e, ?_⟩
      unfold retryLoop
      rw [he, sched_one]
    | f' + 1 =>
      obtain ⟨msg, hmsg⟩ := ih (attempt + 1) (Nat.succ_pos _)
        (fun a ha => by
          obtain ⟨e', he'⟩ := hfail (a + 1) (by omega)
          exact ⟨e', by rw [← he']; ring_nf⟩)
      refine ⟨msg, ?_⟩
      unfold retryLoop
      rw [he]
      simp only [hmsg]
      rw [sched_succ]
      try simp [List.append_assoc]

lemma retryLoop_calls_le (d : Nat) (client : Nat → Except String (List Nat)) :
    ∀ (fuel attempt : Nat),
      ((retryLoop d client attempt fuel).1.filter BatchEvent.isCall).length ≤ fuel := by
  intro fuel
  induction fuel with
  | zero => intro attempt; simp [retryLoop]
  | succ f ih =>
    intro attempt
    rcases f with _ | f'
    · unfold retryLoop
      rcases hc : client attempt with e | hashes <;>
        simp [hc, BatchEvent.isCall, List.filter_append, filter_isCall_pre]
    · unfold retryLoop
      rcases hc : client attempt with e | hashes
      · have h2 := ih (attempt + 1)
        simp only [hc, List.filter_append, filter_isCall_pre, List.length_append]
        simp [BatchEvent.isCall]
        omega
      · simp [hc, BatchEvent.isCall, List.filter_append, filter_isCall_pre]

/-- C5: a whole-chunk failure is retried — with a `retryDelay` sleep
before each retry — until success or until `retryCount + 1` total
attempts; once a batch call succeeds no further call is made, and an
element whose returned hash is zero is recorded as failed without any
retry.  If every attempt fails the whole chunk is marked failed with the
retry-exhaustion error. -/
theorem batcher_retry_semantics (retryCount retryDelay txCount k : Nat)
    (client : Nat → Except String (List Nat)) (hashes : List Nat)
    (hk : k ≤ retryCount)
    (hfail : ∀ a, a < k → ∃ e, client a = Except.error e)
    (hok : client k = Except.ok hashes) :
    (sendBatch retryCount retryDelay client txCount).1 =
      (List.range (k + 1)).flatMap
        (fun a => (if 0 < a then [BatchEvent.sleep retryDelay] else []) ++
          [BatchEvent.rpcCall a]) ∧
    (∀ i, i < txCount → ∀ h, hashes.get? i = some h →
      (sendBatch retryCount retryDelay client txCount).2.get? i =
        some (if h = 0 then ⟨BatchTxStatus.failed, h, none⟩
          else ⟨BatchTxStatus.sent, h, none⟩)) ∧
    (∀ client' : Nat → Except String (List Nat),
      ((sendBatch retryCount retryDelay client' txCount).1.filter BatchEvent.isCall).length ≤
        retryCount + 1) ∧
    (∀ client' : Nat → Except String (List Nat),
      (∀ a, a ≤ retryCount → ∃ e, client' a = Except.error e) →
      ∃ msg, (sendBatch retryCount retryDelay client' txCount).2 =
        List.replicate txCount ⟨BatchTxStatus.failed, 0, some msg⟩) := by
  have hloop := retryLoop_stops_at_success retryDelay client hashes k 0 (retryCount + 1)
    (by omega) (fun a ha => by simpa using hfail a ha) (by simpa using hok)
  have hsend : sendBatch retryCount retryDelay client txCount =
      ((List.range (k + 1)).flatMap
        (fun a => (if 0 < a then [BatchEvent.sleep retryDelay] else []) ++
          [BatchEvent.rpcCall a]),
       (List.range txCount).map fun i =>
        match hashes.get? i with
        | none => ⟨BatchTxStatus.pending, 0, none⟩
        | some h => if h = 0 then ⟨BatchTxStatus.failed, h, none⟩
            else ⟨BatchTxStatus.sent, h, none⟩) := by
    unfold sendBatch sendBatchWithRetry
    rw [hloop]
    simp only [Nat.zero_add]
  refine ⟨by rw [hsend], ?_, ?_, ?_⟩
  · intro i hi h hh
    rw [hsend]
    simp only [List.get?_map, List.get?_range hi, Option.map_some', Option.map_some]
    rw [hh]
  · intro client'
    unfold sendBatch sendBatchWithRetry
    rcases hres : (retryLoop retryDelay client' 0 (retryCount + 1)) with ⟨evs, r⟩
    have := retryLoop_calls_le retryDelay client' (retryCount + 1) 0
    rw [hres] at this
    rcases r with e | hs <;> simpa using this
  · intro client' hfail'
    obtain ⟨msg, hmsg⟩ := retryLoop_all_fail retryDelay client' (retryCount + 1) 0
      (Nat.succ_pos _) (fun a ha => by simpa using hfail' a (by omega))
    refine ⟨msg, ?_⟩
    unfold sendBatch sendBatchWithRetry
    rw [hmsg]

/-- Closed-instance witness for `batcher_retry_semantics`: the first
attempt fails, the second succeeds with hash array `[5, 0, 7]`, and the
zero hash at position 1 is recorded as a failed transaction. -/
theorem batcher_retry_semantics_witness :
    ((fun a => if a < 1 then Except.error "boom" else Except.ok [5, 0, 7] :
        Nat → Except String (List Nat)) 1 = Except.ok [5, 0, 7]) ∧
    (sendBatch 2 9 (fun a => if a < 1 then Except.error "boom" else Except.ok [5, 0, 7])
        3).2.get? 1 = some ⟨BatchTxStatus.failed, 0, none⟩ :=
  ⟨rfl, by
    have h := batcher_retry_semantics 2 9 3 1
      (fun a => if a < 1 then Except.error "boom" else Except.ok [5, 0, 7]) [5, 0, 7]
      (by omega)
      (fun a ha => ⟨"boom", by
        have ha0 : a = 0 := by omega
        subst ha0
        rfl⟩)
      (by rfl)
    have h2 := h.2.1 1 (by omega) 0 (by rfl)
    simpa using h2⟩


/-! ### Distributor greedy funding (claim C6) and error-before-send (claim C10) -/

lemma fundCostSum_nil (tc : Int) : fundCostSum tc [] = 0 := rfl

lemma fundCostSum_cons (tc : Int) (a : AccountStatus) (l : List AccountStatus) :
    fundCostSum tc (a :: l) = (a.missingFund + tc) + fundCostSum tc l := by
  simp [fundCostSum]

lemma selectFundable_spec (tc : Int) :
    ∀ (l : List AccountStatus) (bal : Int), 0 ≤ bal →
      ∃ k, selectFundable tc bal l = l.take k ∧ k ≤ l.length ∧
        fundCostSum tc (l.take k) ≤ bal ∧
        (k < l.length → bal < fundCostSum tc (l.take (k + 1))) := by
  intro l
  induction l with
  | nil =>
    intro bal hbal
    exact ⟨0, rfl, by simp, by simpa [fundCostSum_nil], by simp⟩
  | cons a rest ih =>
    intro bal hbal
    by_cases hb : bal < a.missingFund + tc
    · refine ⟨0, ?_, by simp, by simpa [fundCostSum_nil], ?_⟩
      · unfold selectFundable
        simp [hb]
      · intro _
        simpa [fundCostSum_cons, fundCostSum_nil] using hb
    · push_neg at hb
      obtain ⟨k, hsel, hklen, hcost, hmax⟩ :=
        ih (bal - (a.missingFund + tc)) (by omega)
      refine ⟨k + 1, ?_, by simpa using hklen, ?_, ?_⟩
      · unfold selectFundable
        simp only [not_lt.mpr hb, if_neg, if_false, List.take_succ_cons]
        rw [hsel]
      · rw [List.take_succ_cons, fundCostSum_cons]
        omega
      · intro hlt
        have h2 := hmax (by simpa using hlt)
        rw [List.take_succ_cons, fundCostSum_cons]
        omega

/-- The outcome of `fundAccounts` when the greedy selection is empty. -/
lemma fundAccounts_empty_case (masterAddr : Nat) (masterBalance : Int)
    (cfgGasPrice : Option Int) (suggestedGasPrice : Int) (masterNonce : Nat)
    (unfunded : List AccountStatus)
    (hemp : (selectFundable ((resolveGasPrice cfgGasPrice suggestedGasPrice).1 * 21000)
      masterBalance unfunded).isEmpty = true) :
    fundAccounts masterAddr masterBalance cfgGasPrice suggestedGasPrice masterNonce unfunded =
      (DistAction.balanceAt masterAddr :: (resolveGasPrice cfgGasPrice suggestedGasPrice).2,
       .error .insufficientFunds) := by
  unfold fundAccounts
  simp only [hemp, if_pos]

/-- The outcome of `fundAccounts` when the greedy selection is
non-empty: a successful result built from the selection. -/
lemma fundAccounts_nonempty_case (masterAddr : Nat) (masterBalance : Int)
    (cfgGasPrice : Option Int) (suggestedGasPrice : Int) (masterNonce : Nat)
    (unfunded : List AccountStatus)
    (hemp : (selectFundable ((resolveGasPrice cfgGasPrice suggestedGasPrice).1 * 21000)
      masterBalance unfunded).isEmpty = false) :
    (fundAccounts masterAddr masterBalance cfgGasPrice suggestedGasPrice masterNonce
        unfunded).2 =
      .ok { readyAccounts := (selectFundable
              ((resolveGasPrice cfgGasPrice suggestedGasPrice).1 * 21000)
              masterBalance unfunded).map markFunded
            unfundedAccounts := unfunded.drop (selectFundable
              ((resolveGasPrice cfgGasPrice suggestedGasPrice).1 * 21000)
              masterBalance unfunded).length
            totalDistributed := ((selectFundable
              ((resolveGasPrice cfgGasPrice suggestedGasPrice).1 * 21000)
              masterBalance unfunded).map AccountStatus.missingFund).sum
            txCount := (selectFundable
              ((resolveGasPrice cfgGasPrice suggestedGasPrice).1 * 21000)
              masterBalance unfunded).length } := by
  unfold fundAccounts
  simp only [hemp, Bool.false_eq_true, if_neg, if_false]

/-- C6: for a distribution run the unfunded accounts, sorted ascending by
missing fund, are accepted greedily while the master balance covers the
running total of `missing + 21000 * gas_price`; the leftover accounts are
returned as unfundable without an error, and the run fails with the
distinct insufficient-master-funds error exactly when not even the first
(cheapest) account can be afforded. -/
theorem distributor_greedy_funding (masterAddr : Nat) (masterBalance : Int)
    (cfgGasPrice : Option Int) (suggestedGasPrice : Int) (masterNonce : Nat)
    (unfunded : List AccountStatus) (hbal : 0 ≤ masterBalance) (hne : unfunded ≠ []) :
    (sortByMissing unfunded).Perm unfunded ∧
    List.Sorted (fun x y => x.missingFund ≤ y.missingFund) (sortByMissing unfunded) ∧
    ((fundAccounts masterAddr masterBalance cfgGasPrice suggestedGasPrice masterNonce
        (sortByMissing unfunded)).2 = .error .insufficientFunds ↔
      masterBalance <
        fundCostSum ((resolveGasPrice cfgGasPrice suggestedGasPrice).1 * 21000)
          ((sortByMissing unfunded).take 1)) ∧
    (∀ res, (fundAccounts masterAddr masterBalance cfgGasPrice suggestedGasPrice masterNonce
        (sortByMissing unfunded)).2 = .ok res →
      ∃ k, 0 < k ∧ k ≤ (sortByMissing unfunded).length ∧
        res.readyAccounts = ((sortByMissing unfunded).take k).map markFunded ∧
        res.unfundedAccounts = (sortByMissing unfunded).drop k ∧
        fundCostSum ((resolveGasPrice cfgGasPrice suggestedGasPrice).1 * 21000)
          ((sortByMissing unfunded).take k) ≤ masterBalance ∧
        (k < (sortByMissing unfunded).length →
          masterBalance <
            fundCostSum ((resolveGasPrice cfgGasPrice suggestedGasPrice).1 * 21000)
              ((sortByMissing unfunded).take (k + 1))) ∧
        res.totalDistributed =
          (((sortByMissing unfunded).take k).map AccountStatus.missingFund).sum ∧
        res.txCount = k) := by
  have hperm : (sortByMissing unfunded).Perm unfunded := List.perm_insertionSort _ _
  have hsorted : List.Sorted (fun x y => x.missingFund ≤ y.missingFund)
      (sortByMissing unfunded) := List.sorted_insertionSort _ _
  have hlne : sortByMissing unfunded ≠ [] := by
    intro h
    apply hne
    have hl := hperm.length_eq
    rw [h] at hl
    exact List.eq_nil_of_length_eq_zero hl.symm
  obtain ⟨k, hsel, hklen, hcost, hmax⟩ := selectFundable_spec
    ((resolveGasPrice cfgGasPrice suggestedGasPrice).1 * 21000)
    (sortByMissing unfunded) masterBalance hbal
  have hlpos : 0 < (sortByMissing unfunded).length := List.length_pos.mpr hlne
  refine ⟨hperm, hsorted, ?_, ?_⟩
  · obtain ⟨a, rest, hsm⟩ : ∃ a rest, sortByMissing unfunded = a :: rest := by
      rcases hx : sortByMissing unfunded with _ | ⟨y, ys⟩
      · exact absurd hx hlne
      · exact ⟨y, ys, rfl⟩
    have htake1 : fundCostSum ((resolveGasPrice cfgGasPrice suggestedGasPrice).1 * 21000)
        ((sortByMissing unfunded).take 1) =
        a.missingFund + (resolveGasPrice cfgGasPrice suggestedGasPrice).1 * 21000 := by
      rw [hsm, show (1 : Nat) = 0 + 1 from rfl, List.take_succ_cons, List.take_zero,
        fundCostSum_cons, fundCostSum_nil]
      omega
    constructor
    · intro herr
      by_cases hemp : (selectFundable
          ((resolveGasPrice cfgGasPrice suggestedGasPrice).1 * 21000)
          masterBalance (sortByMissing unfunded)).isEmpty
      · have hk0 : k = 0 := by
          rw [hsel] at hemp
          rcases Nat.eq_zero_or_pos k with h0 | hkpos
          · exact h0
          · exfalso
            rw [List.isEmpty_iff, List.take_eq_nil_iff] at hemp
            rcases hemp with h | h
            · omega
            · exact hlne h
        subst hk0
        have h1 := hmax hlpos
        simpa using h1
      · rw [fundAccounts_nonempty_case _ _ _ _ _ _ (by simpa using hemp)] at herr
        cases herr
    · intro hlt
      rw [htake1] at hlt
      have hemp : (selectFundable
          ((resolveGasPrice cfgGasPrice suggestedGasPrice).1 * 21000)
          masterBalance (sortByMissing unfunded)).isEmpty = true := by
        rw [hsm]
        unfold selectFundable
        simp [hlt]
      rw [fundAccounts_empty_case _ _ _ _ _ _ hemp]
  · intro res hres
    by_cases hemp : (selectFundable
        ((resolveGasPrice cfgGasPrice suggestedGasPrice).1 * 21000)
        masterBalance (sortByMissing unfunded)).isEmpty
    · rw [fundAccounts_empty_case _ _ _ _ _ _ hemp] at hres
      cases hres
    · rw [fundAccounts_nonempty_case _ _ _ _ _ _ (by simpa using hemp)] at hres
      have hkpos : 0 < k := by
        by_contra hk
        have hk0 : k = 0 := by omega
        rw [hsel, hk0, List.take_zero] at hemp
        exact hemp List.isEmpty_nil
      have hlen : ((sortByMissing unfunded).take k).length = k := by
        rw [List.length_take]
        omega
      refine ⟨k, hkpos, hklen, ?_, ?_, hcost, hmax, ?_, ?_⟩
      · rw [← Except.ok.inj hres, hsel]
      · rw [← Except.ok.inj hres]
        simp only [hsel, hlen]
      · rw [← Except.ok.inj hres, hsel]
      · rw [← Except.ok.inj hres]
        simp only [hsel, hlen]

/-- Closed-instance witness for `distributor_greedy_funding` on a single
zero-balance account and ample master balance. -/
theorem distributor_greedy_funding_witness :
    ((0 : Int) ≤ 100000) ∧
    ([⟨1, 0, 50, 30, 0, false⟩] ≠ ([] : List AccountStatus)) ∧
    (sortByMissing [⟨1, 0, 50, 30, 0, false⟩]).Perm [⟨1, 0, 50, 30, 0, false⟩] :=
  ⟨by norm_num, by simp,
   (distributor_greedy_funding 99 100000 (some 1) 1 4 [⟨1, 0, 50, 30, 0, false⟩]
     (by norm_num) (by simp)).1⟩

/-- C10: when `fundAccounts` fails with the insufficient-master-funds
error, the master balance check has run but no funding transaction has
been submitted and the master nonce has not been fetched: the action trace
contains the master `BalanceAt` call and no `SendTransaction` or master
`PendingNonceAt` call. -/
theorem distributor_error_before_send (masterAddr : Nat) (masterBalance : Int)
    (cfgGasPrice : Option Int) (suggestedGasPrice : Int) (masterNonce : Nat)
    (unfunded : List AccountStatus)
    (herr : (fundAccounts masterAddr masterBalance cfgGasPrice suggestedGasPrice masterNonce
        unfunded).2 = .error .insufficientFunds) :
    DistAction.balanceAt masterAddr ∈
      (fundAccounts masterAddr masterBalance cfgGasPrice suggestedGasPrice masterNonce
        unfunded).1 ∧
    ∀ act ∈ (fundAccounts masterAddr masterBalance cfgGasPrice suggestedGasPrice masterNonce
        unfunded).1,
      act.isSend = false ∧ act ≠ DistAction.pendingNonceAt masterAddr := by
  by_cases hemp : (selectFundable
      ((resolveGasPrice cfgGasPrice suggestedGasPrice).1 * 21000) masterBalance
      unfunded).isEmpty
  · rw [fundAccounts_empty_case _ _ _ _ _ _ hemp]
    constructor
    · exact List.mem_cons_self _ _
    · intro act hact
      rcases List.mem_cons.mp hact with rfl | hact'
      · exact ⟨rfl, fun h => DistAction.noConfusion h⟩
      · rcases cfgGasPrice with _ | g
        · simp only [resolveGasPrice, List.mem_singleton] at hact'
          subst hact'
          exact ⟨rfl, fun h => DistAction.noConfusion h⟩
        · by_cases hg : 0 < g
          · simp [resolveGasPrice, hg] at hact'
          · simp only [resolveGasPrice, hg, if_neg, if_false, List.mem_singleton] at hact'
            subst hact'
            exact ⟨rfl, fun h => DistAction.noConfusion h⟩
  · rw [fundAccounts_nonempty_case _ _ _ _ _ _ (by simpa using hemp)] at herr
    cases herr

/-- Closed-instance witness for `distributor_error_before_send`: a master
balance of 10 wei cannot fund an account missing 30 wei at gas price 1. -/
theorem distributor_error_before_send_witness :
    ((fundAccounts 99 10 (some 1) 1 4 [⟨1, 0, 50, 30, 0, false⟩]).2 =
      Except.error DistError.insufficientFunds) ∧
    DistAction.balanceAt 99 ∈ (fundAccounts 99 10 (some 1) 1 4 [⟨1, 0, 50, 30, 0, false⟩]).1 :=
  ⟨by rfl,
   (distributor_error_before_send 99 10 (some 1) 1 4 [⟨1, 0, 50, 30, 0, false⟩] (by rfl)).1⟩

/-! ### Hash/raw agreement (claim C2) -/

/-- go-ethereum invariant: a transaction's hash is the keccak-256 of its
binary marshalling, for legacy and typed transactions alike. -/
lemma goTx_hash_eq_keccak_marshal (keccak : List Nat → List Nat) (t : GoTx) :
    t.txHash keccak = keccak t.marshalBinary := by
  cases t <;> rfl

/-- C2: every `SignedTx` emitted by the transfer builder (a standard
typed transaction) or by the fee-delegated builder carries
`hash = keccak256(raw)`. -/
theorem hash_raw_agreement (keccak : List Nat → List Nat)
    (legacySig : Nat → List RVal → Nat → Sig) (pubAddr : Nat → List Nat)
    (c : FDCrypto) (feePayerKey : Option Nat) (recipient : List Nat)
    (cfgValue : Option Nat) (chainID gasPrice cfgGasLimit gasTipCap gasFeeCap : Nat)
    (keys nonces : List Nat) (count : Nat) (order : List (Nat × Nat))
    (hkec : c.keccak = keccak) (txs : List SignedTx)
    (h : transferBuild keccak legacySig pubAddr recipient cfgValue chainID gasPrice
        cfgGasLimit keys nonces count order = .ok txs ∨
      feeDelegationBuild c feePayerKey recipient chainID cfgGasLimit gasTipCap gasFeeCap
        keys nonces count order = .ok txs)
    (tx : SignedTx) (htx : tx ∈ txs) : tx.hash = keccak tx.rawTx := by
  rcases h with h | h
  · unfold transferBuild at h
    split at h
    · cases h
    · split at h
      · cases h
      · obtain ⟨e, _, hmem⟩ := List.mem_flatMap.mp (by
          rw [← Except.ok.inj h] at htx
          exact htx)
        obtain ⟨i, _, rfl⟩ := List.mem_map.mp hmem
        simp only [transferMkTx]
        exact goTx_hash_eq_keccak_marshal keccak _
  · unfold feeDelegationBuild at h
    split at h
    · cases h
    · split at h
      · cases h
      · rcases hf : feePayerKey with _ | fpk
        · rw [hf] at h
          cases h
        · rw [hf] at h
          obtain ⟨e, _, hmem⟩ := List.mem_flatMap.mp (by
            rw [← Except.ok.inj h] at htx
            exact htx)
          obtain ⟨i, _, rfl⟩ := List.mem_map.mp hmem
          rw [← hkec]
          rfl

/-- Closed-instance witness for `hash_raw_agreement`: the single
transaction a one-key transfer build emits. -/
theorem hash_raw_agreement_witness :
    (transferBuild (fun bs => 0 :: bs) (fun _ _ _ => ⟨1, 2, 3⟩) (fun k => [k]) [] none
        7 5 0 [11] [0] 1 (DistributeTransactions 1 1) =
      Except.ok (match transferBuild (fun bs => 0 :: bs) (fun _ _ _ => ⟨1, 2, 3⟩)
        (fun k => [k]) [] none 7 5 0 [11] [0] 1 (DistributeTransactions 1 1) with
        | .ok l => l
        | .error _ => []) : Prop) ∧
    ∀ tx ∈ (match transferBuild (fun bs => 0 :: bs) (fun _ _ _ => ⟨1, 2, 3⟩)
        (fun k => [k]) [] none 7 5 0 [11] [0] 1 (DistributeTransactions 1 1) with
        | .ok l => l
        | .error _ => []),
      tx.hash = (fun bs => 0 :: bs) tx.rawTx := by
  constructor
  · rfl
  · intro tx htx
    refine hash_raw_agreement (fun bs => 0 :: bs) (fun _ _ _ => ⟨1, 2, 3⟩) (fun k => [k])
      ⟨fun bs => 0 :: bs, fun _ _ => ⟨1, 2, 3⟩, fun k => [k]⟩ none [] none 7 5 0 0 0
      [11] [0] 1 (DistributeTransactions 1 1) rfl _ (Or.inl rfl) tx htx

/-! ### Per-account nonce monotonicity (claim C3) -/

lemma count_fst_distributeTransactions (n t a : Nat) :
    ((DistributeTransactions n t).map Prod.fst).count a =
      if a < n ∧ 0 < distCount n t a then 1 else 0 := by
  rw [distributeTransactions_eq, List.map_map]
  have hid : (Prod.fst ∘ fun i => (i, distCount n t i)) = id := rfl
  rw [hid, List.map_id]
  by_cases hmem : a ∈ (List.range n).filter (fun i => 0 < distCount n t i)
  · rw [List.count_eq_one_of_mem (List.Nodup.filter _ (List.nodup_range n)) hmem]
    rw [List.mem_filter, List.mem_range] at hmem
    have : a < n ∧ 0 < distCount n t a := ⟨hmem.1, by simpa using hmem.2⟩
    rw [if_pos this]
  · rw [List.count_eq_zero_of_not_mem hmem]
    rw [List.mem_filter, List.mem_range] at hmem
    have : ¬ (a < n ∧ 0 < distCount n t a) := by
      intro ⟨h1, h2⟩
      exact hmem ⟨h1, by simpa using h2⟩
    rw [if_neg this]

lemma flatMap_single_target {α : Type} (g : Nat × Nat → List α) (target : List α) (a : Nat) :
    ∀ (L : List (Nat × Nat)),
      (∀ e ∈ L, e.1 ≠ a → g e = []) →
      (∀ e ∈ L, e.1 = a → g e = target) →
      (((L.map Prod.fst).count a = 0 → L.flatMap g = []) ∧
       ((L.map Prod.fst).count a = 1 → L.flatMap g = target)) := by
  intro L
  induction L with
  | nil =>
    intro _ _
    exact ⟨fun _ => rfl, fun h => by cases h⟩
  | cons e rest ih =>
    intro h1 h2
    obtain ⟨ih0, ih1⟩ := ih (fun x hx => h1 x (List.mem_cons_of_mem _ hx))
      (fun x hx => h2 x (List.mem_cons_of_mem _ hx))
    constructor
    · intro hc
      rw [List.map_cons, List.count_cons] at hc
      by_cases he : e.1 = a
      · exfalso
        rw [if_pos (by simpa using he)] at hc
        omega
      · rw [if_neg (by simpa using he)] at hc
        rw [List.flatMap_cons, h1 e (List.mem_cons_self _ _) he, List.nil_append]
        exact ih0 (by omega)
    · intro hc
      rw [List.map_cons, List.count_cons] at hc
      by_cases he : e.1 = a
      · rw [if_pos (by simpa using he)] at hc
        rw [List.flatMap_cons, h2 e (List.mem_cons_self _ _) he,
          ih0 (by omega), List.append_nil]
      · rw [if_neg (by simpa using he)] at hc
        rw [List.flatMap_cons, h1 e (List.mem_cons_self _ _) he, List.nil_append]
        exact ih1 (by omega)

/-- The per-account projection of any interleaved build loop: filtering
the flat-mapped output to one account's address yields exactly that
account's consecutive nonce range in order. -/
lemma buildLoop_filter_nonces (mk : Nat → Nat → SignedTx) (addr : Nat → List Nat)
    (n0 : Nat → Nat)
    (hfrom : ∀ idx nn, (mk idx nn).fromAddr = addr idx)
    (hnonce : ∀ idx nn, (mk idx nn).nonce = nn)
    (n t : Nat) (order : List (Nat × Nat))
    (hord : order.Perm (DistributeTransactions n t))
    (a : Nat) (ha : a < n)
    (haddr : ∀ b, b < n → addr b = addr a → b = a) :
    ((order.flatMap fun e => (List.range e.2).map fun i => mk e.1 (n0 e.1 + i)).filter
        (fun tx => tx.fromAddr = addr a)).map SignedTx.nonce
      = List.range' (n0 a) (distCount n t a) := by
  rw [List.filter_flatMap, List.map_flatMap]
  have hchar : ∀ e ∈ order, e.1 < n ∧ e.2 = distCount n t e.1 ∧ 0 < e.2 :=
    fun e he => mem_distributeTransactions.mp (hord.mem_iff.mp he)
  have hcount : ((order.map Prod.fst).count a) =
      if a < n ∧ 0 < distCount n t a then 1 else 0 := by
    rw [(hord.map Prod.fst).count_eq a]
    exact count_fst_distributeTransactions n t a
  have hzero : ∀ e ∈ order, e.1 ≠ a →
      (((List.range e.2).map fun i => mk e.1 (n0 e.1 + i)).filter
        (fun tx => decide (tx.fromAddr = addr a))).map SignedTx.nonce = [] := by
    intro e he hne
    have hb := (hchar e he).1
    have haf : addr e.1 ≠ addr a := fun hEq => hne (haddr e.1 hb hEq)
    have : ((List.range e.2).map fun i => mk e.1 (n0 e.1 + i)).filter
        (fun tx => decide (tx.fromAddr = addr a)) = [] := by
      rw [List.filter_eq_nil_iff]
      intro tx htx
      obtain ⟨i, _, rfl⟩ := List.mem_map.mp htx
      simpa [hfrom] using haf
    rw [this, List.map_nil]
  have htarget : ∀ e ∈ order, e.1 = a →
      (((List.range e.2).map fun i => mk e.1 (n0 e.1 + i)).filter
        (fun tx => decide (tx.fromAddr = addr a))).map SignedTx.nonce =
      List.range' (n0 a) (distCount n t a) := by
    intro e he hea
    obtain ⟨hb, hc, hpos⟩ := hchar e he
    have hkeep : ((List.range e.2).map fun i => mk e.1 (n0 e.1 + i)).filter
        (fun tx => decide (tx.fromAddr = addr a)) =
        (List.range e.2).map fun i => mk e.1 (n0 e.1 + i) := by
      rw [List.filter_eq_self]
      intro tx htx
      obtain ⟨i, _, rfl⟩ := List.mem_map.mp htx
      simp [hfrom, hea]
    rw [hkeep, List.map_map]
    have hfun : (SignedTx.nonce ∘ fun i => mk e.1 (n0 e.1 + i)) =
        fun i => n0 a + i := by
      funext i
      simp [Function.comp, hnonce, hea]
    rw [hfun, hea] at *
    rw [← hc, hea]
    exact (List.range'_eq_map_range (n0 a) e.2).symm
  obtain ⟨h0, h1⟩ := flatMap_single_target
    (fun e => (((List.range e.2).map fun i => mk e.1 (n0 e.1 + i)).filter
      (fun tx => decide (tx.fromAddr = addr a))).map SignedTx.nonce)
    (List.range' (n0 a) (distCount n t a)) a order hzero htarget
  by_cases hpos : 0 < distCount n t a
  · exact h1 (by rw [hcount, if_pos ⟨ha, hpos⟩])
  · have hz : distCount n t a = 0 := by omega
    rw [hz, List.range'_zero]
    exact h0 (by rw [hcount, if_neg (fun ⟨_, h⟩ => hpos h)])

/-- C3: in a single `Build` call — transfer or fee-delegated — each
account's transactions carry the consecutive nonces
`n0, n0+1, …, n0+k-1`, where `n0` is that account's supplied starting
nonce and `k` its assigned count, and they appear in the output in that
order (the iteration order over the distribution map is an arbitrary
permutation `order` of its entries). -/
theorem nonce_monotonicity (keccak : List Nat → List Nat)
    (legacySig : Nat → List RVal → Nat → Sig) (pubAddr : Nat → List Nat)
    (c : FDCrypto) (fpk : Nat) (recipient : List Nat) (cfgValue : Option Nat)
    (chainID gasPrice cfgGasLimit gasTipCap gasFeeCap : Nat)
    (keys nonces : List Nat) (count : Nat) (order : List (Nat × Nat))
    (hord : order.Perm (DistributeTransactions keys.length count))
    (a : Nat) (ha : a < keys.length)
    (hinj1 : ∀ b, b < keys.length →
      pubAddr (keys.getD b 0) = pubAddr (keys.getD a 0) → b = a)
    (hinj2 : ∀ b, b < keys.length →
      c.pubAddr (keys.getD b 0) = c.pubAddr (keys.getD a 0) → b = a) :
    (∀ txs, transferBuild keccak legacySig pubAddr recipient cfgValue chainID gasPrice
        cfgGasLimit keys nonces count order = .ok txs →
      ((txs.filter (fun tx => tx.fromAddr = pubAddr (keys.getD a 0))).map SignedTx.nonce)
        = List.range' (nonces.getD a 0) (distCount keys.length count a)) ∧
    (∀ txs, feeDelegationBuild c (some fpk) recipient chainID cfgGasLimit gasTipCap
        gasFeeCap keys nonces count order = .ok txs →
      ((txs.filter (fun tx => tx.fromAddr = c.pubAddr (keys.getD a 0))).map SignedTx.nonce)
        = List.range' (nonces.getD a 0) (distCount keys.length count a)) := by
  constructor
  · intro txs htxs
    unfold transferBuild at htxs
    split at htxs
    · cases htxs
    · split at htxs
      · cases htxs
      · rw [← Except.ok.inj htxs]
        exact buildLoop_filter_nonces
          (fun idx nn => transferMkTx keccak legacySig pubAddr recipient cfgValue chainID
            gasPrice (if cfgGasLimit = 0 then 21000 else cfgGasLimit) keys idx nn)
          (fun idx => pubAddr (keys.getD idx 0)) (fun idx => nonces.getD idx 0)
          (fun idx nn => rfl) (fun idx nn => rfl)
          keys.length count order hord a ha hinj1
  · intro txs htxs
    unfold feeDelegationBuild at htxs
    split at htxs
    · cases htxs
    · split at htxs
      · cases htxs
      · rw [← Except.ok.inj htxs]
        exact buildLoop_filter_nonces
          (fun idx nn => feeDelegationMkTx c fpk recipient chainID
            (if cfgGasLimit = 0 then 21000 else cfgGasLimit) gasTipCap gasFeeCap keys idx nn)
          (fun idx => c.pubAddr (keys.getD idx 0)) (fun idx => nonces.getD idx 0)
          (fun idx nn => rfl) (fun idx nn => rfl)
          keys.length count order hord a ha hinj2

/-- Closed-instance witness for `nonce_monotonicity`: one key starting at
nonce 3 with two transfers uses nonces `[3, 4]`. -/
theorem nonce_monotonicity_witness :
    (DistributeTransactions 1 2).Perm (DistributeTransactions 1 2) ∧ 0 < 1 ∧
    ((match transferBuild (fun bs => 0 :: bs) (fun _ _ _ => ⟨1, 2, 3⟩) (fun k => [k]) []
        none 7 5 0 [11] [3] 2 (DistributeTransactions 1 2) with
      | .ok l => l
      | .error _ => []).filter
        (fun tx : SignedTx => tx.fromAddr = [11])).map SignedTx.nonce
      = List.range' (List.getD [3] 0 0) (distCount 1 2 0) := by
  refine ⟨List.Perm.refl _, Nat.one_pos, ?_⟩
  exact (nonce_monotonicity (fun bs => 0 :: bs) (fun _ _ _ => ⟨1, 2, 3⟩) (fun k => [k])
    ⟨fun bs => 0 :: bs, fun _ _ => ⟨1, 2, 3⟩, fun k => [k]⟩ 0 [] none 7 5 0 0 0
    [11] [3] 2 (DistributeTransactions 1 2) (List.Perm.refl _) 0 Nat.one_pos
    (fun b hb _ => by simp at hb; omega) (fun b hb _ => by simp at hb; omega)).1 _ rfl
